import Mathlib

/-!
Verification of the worker-side task-execution agent (luci-py swarming bot):
a shallow embedding of the resilient HTTP client and retry loop of
`utils/net.py`, and of the task-runner supervisor whose behaviour is pinned
by `appengine/swarming/swarming_bot/task_runner_test.py`, together with
proofs of the specified properties.
-/

namespace Net

/-- Embeds the pre-cap duration computed by `calculate_sleep_before_retry`
in `utils/net.py`: `random.random() * 1.5 + math.pow(1.5, attempt - 1)`,
where `r` stands for the value of `random.random() * 1.5`. -/
def sleepDurationRaw (attempt : Nat) (r : ℚ) : ℚ :=
  r + (3/2 : ℚ) ^ ((attempt : ℤ) - 1)

/-- The `MAX_SLEEP` constant of `calculate_sleep_before_retry` in
`utils/net.py`. -/
def MAX_SLEEP : ℚ := 10

/-- Embeds `calculate_sleep_before_retry` from `utils/net.py`: the jittered
duration, capped at `MAX_SLEEP` and then, when `max_duration` is truthy
(present and nonzero, mirroring Python's `if max_duration:`), at
`max_duration`. -/
def calculate_sleep_before_retry (attempt : Nat) (maxDuration : Option ℚ)
    (r : ℚ) : ℚ :=
  let duration := min MAX_SLEEP (sleepDurationRaw attempt r)
  match maxDuration with
  | none => duration
  | some m => if m = 0 then duration else min m duration

/-- Outcome of reading an `HttpResponse` body (`HttpResponse.read` in
`utils/net.py`): either all bytes of the body, or a `TimeoutError` raised
during the read. -/
inductive ReadOutcome
  | ok (data : List Nat)
  | timeout
deriving DecidableEq, Repr

/-- Embeds `url_read` from `utils/net.py`. The argument is the result of
`url_open`: `none` models `url_open` returning `None` (unable to connect),
`some o` models a response whose `read()` behaves as `o`. -/
def url_read (urlOpen : Option ReadOutcome) : Option (List Nat) :=
  match urlOpen with
  | none => none
  | some (.ok data) => some data
  | some .timeout => none

/-- Outcome of one attempt inside `HttpService.request` in `utils/net.py`,
as classified by its `try/except` clauses: the request succeeded, a
`ConnectionError`/`TimeoutError` was raised, or an `HttpError` with the
given status code was raised. -/
inductive Outcome
  | ok
  | connErr
  | httpErr (code : Nat)
deriving DecidableEq, Repr

/-- Observable behaviour of one logical `HttpService.request` call:
whether a response was returned (Python: non-`None` result), how many
attempts were performed, how many times `authenticator.authenticate()`
was invoked, and how many inter-attempt sleeps were performed. -/
structure ReqResult where
  ok : Bool
  attempts : Nat
  auths : Nat
  sleeps : Nat
deriving DecidableEq, Repr

/-- Embeds the attempt loop of `HttpService.request` from `utils/net.py`
in its default no-`timeout` configuration (classification of each failing
attempt does not depend on the clock). `out i` is the outcome of attempt
`i`; `auth` models `self.authenticator`: `none` when absent, `some b`
when present with `authenticate()` returning `b`; `fuel` is the number of
attempts `retry_loop` will still yield (`maxA - i` at the top-level call).
After a retried attempt `i`, `retry_loop` sleeps exactly when `maxA` is
truthy and `i ≠ maxA - 1`; after a successful re-authentication
`skip_sleep` is set, so no sleep is counted. -/
def requestLoop (out : Nat → Outcome) (auth : Option Bool)
    (retry404 retry50x : Bool) (maxA : Nat) :
    Nat → Bool → Nat → ReqResult
  | _, _, 0 => ⟨false, 0, 0, 0⟩
  | i, authAttempted, fuel + 1 =>
    match out i with
    | .ok => ⟨true, 1, 0, 0⟩
    | .connErr =>
      let r := requestLoop out auth retry404 retry50x maxA (i + 1)
        authAttempted fuel
      ⟨r.ok, r.attempts + 1, r.auths,
        r.sleeps + (if maxA ≠ 0 ∧ i ≠ maxA - 1 then 1 else 0)⟩
    | .httpErr c =>
      if c = 401 ∨ c = 403 then
        if authAttempted then ⟨false, 1, 0, 0⟩
        else
          match auth with
          | some true =>
            let r := requestLoop out auth retry404 retry50x maxA (i + 1)
              true fuel
            ⟨r.ok, r.attempts + 1, r.auths + 1, r.sleeps⟩
          | some false => ⟨false, 1, 1, 0⟩
          | none => ⟨false, 1, 0, 0⟩
      else if (c < 500 ∧ ¬(retry404 ∧ c = 404)) ∨ (500 ≤ c ∧ ¬retry50x) then
        ⟨false, 1, 0, 0⟩
      else
        let r := requestLoop out auth retry404 retry50x maxA (i + 1)
          authAttempted fuel
        ⟨r.ok, r.attempts + 1, r.auths,
          r.sleeps + (if maxA ≠ 0 ∧ i ≠ maxA - 1 then 1 else 0)⟩

/-- One logical `HttpService.request` call with `max_attempts = maxA`
(truthy) and no `timeout`: the loop starts at attempt 0 with
`auth_attempted = False` and will yield at most `maxA` attempts. -/
def request (out : Nat → Outcome) (auth : Option Bool)
    (retry404 retry50x : Bool) (maxA : Nat) : ReqResult :=
  requestLoop out auth retry404 retry50x maxA 0 false maxA

/-- One observable event of `retry_loop` in `utils/net.py`: an attempt is
yielded (carrying the `RetryAttempt`'s 0-based index and `remaining`
budget), or `sleep_before_retry` is called with the given duration. -/
inductive Event
  | yield (attempt : Nat) (remaining : Option ℚ)
  | sleep (duration : ℚ)
deriving DecidableEq, Repr

/-- Embeds the loop body of `retry_loop` from `utils/net.py`. `maxA = 0`
models a falsy `max_attempts` (`None` or `0`); `tA` is the already
truthiness-normalized `timeout`; `skip i` tells whether the consumer set
`skip_sleep` on attempt `i`; `clock n` is the value of the n-th
`current_time()` call (`start` was read at call time); `rand j` is the
jitter `random.random() * 1.5` of the j-th sleep; `fuel` bounds the
number of loop iterations unfolded (the Python generator is unbounded).
The clock index `k` advances once per `current_time()` call, exactly as
in the source: once per iteration for the pre-yield deadline check and
once more for the pre-sleep check, each only when a timeout is set. -/
def retryGo (maxA : Nat) (tA : Option ℚ) (skip : Nat → Bool)
    (clock rand : Nat → ℚ) (start : ℚ) :
    Nat → Nat → Nat → Nat → List Event
  | _, _, _, 0 => []
  | i, k, j, fuel + 1 =>
    if maxA ≠ 0 ∧ i = maxA then []
    else
      match tA with
      | none =>
        .yield i none ::
          (if skip i then
            retryGo maxA none skip clock rand start (i + 1) k j fuel
          else if maxA ≠ 0 ∧ i ≠ maxA - 1 then
            .sleep (calculate_sleep_before_retry i none (rand j)) ::
              retryGo maxA none skip clock rand start (i + 1) k (j + 1) fuel
          else
            retryGo maxA none skip clock rand start (i + 1) k j fuel)
      | some t =>
        if t - (clock k - start) < 0 then []
        else
          .yield i (some (t - (clock k - start))) ::
            (if skip i then
              retryGo maxA (some t) skip clock rand start (i + 1) (k + 1) j
                fuel
            else if maxA ≠ 0 ∧ i ≠ maxA - 1 then
              (if t - (clock (k + 1) - start) < 0 then []
              else
                .sleep (calculate_sleep_before_retry i
                    (some (t - (clock (k + 1) - start))) (rand j)) ::
                  retryGo maxA (some t) skip clock rand start (i + 1)
                    (k + 2) (j + 1) fuel)
            else
              retryGo maxA (some t) skip clock rand start (i + 1) (k + 1) j
                fuel)

/-- Embeds `retry_loop(max_attempts, timeout)` from `utils/net.py`:
normalizes the truthiness of `timeout` (`None` and `0` both mean
unbounded), reads `start = current_time()` (clock index 0) and iterates
from attempt 0. -/
def retry_loop (maxA : Nat) (timeout : Option ℚ) (skip : Nat → Bool)
    (clock rand : Nat → ℚ) (fuel : Nat) : List Event :=
  retryGo maxA
    (match timeout with
     | none => none
     | some t => if t = 0 then none else some t)
    skip clock rand (clock 0) 0 1 0 fuel

/-- The attempts yielded in an event trace of `retry_loop`, in order. -/
def yieldsOf : List Event → List (Nat × Option ℚ)
  | [] => []
  | .yield a r :: es => (a, r) :: yieldsOf es
  | .sleep _ :: es => yieldsOf es

end Net

namespace TaskRunner

/-- `TaskDetails`, derived from a manifest: the manifest fields are pinned
by `task_runner_test.py` (`get_manifest`) and spec §3/§6: bot id, command
argument vector, (source URL, archive name) pairs, environment overrides,
grace period, hard timeout, io timeout, task id. -/
structure TaskDetails where
  bot_id : String
  command : List String
  data : List (String × String)
  env : List (String × String)
  grace_period : ℚ
  hard_timeout : ℚ
  io_timeout : ℚ
  task_id : Nat
deriving DecidableEq, Repr

/-- Modelled from the spec: `load_and_run` of the task runner is absent
from `src/` (only `task_runner_test.py` is present). Spec §4.5 describes
it as parsing the manifest into `TaskDetails`, staging the declared data
and invoking the supervisor's `run_command`. The repository's own tests
`test_load_and_run` and `test_load_and_run_fail` pin the invocation
structure: `run_command` is invoked exactly once, and `load_and_run`
returns `False` when that single invocation returns a nonzero exit code
(no whole-command retry is performed), so the model follows the
test-pinned behaviour rather than §4.5's retry sentence. `run d n` is the
exit code `run_command` would return on its n-th invocation for details
`d`; the result is the returned boolean and the number of `run_command`
invocations performed. -/
def load_and_run (details : TaskDetails) (run : TaskDetails → Nat → Int) :
    Bool × Nat :=
  (run details 0 == 0, 1)

/-- The output payload of one `task_update` progress report: the
`output_chunk_start` offset and the output bytes it carries
(spec §3 OutputAccumulator, §6). -/
structure Report where
  chunk_start : Nat
  output : List Nat
deriving DecidableEq, Repr

/-- Modelled from the spec: the output-reporting discipline of the
supervisor's `run_command` (absent from `src/`; spec §3 OutputAccumulator,
§4.4, §5, exercised by `test_run_command_large`). Each element of the
input is one poll cycle: the byte slice newly read from the process and
whether the supervisor sends a progress update after that cycle (the
batching threshold is a tuning parameter, spec §9; bytes not flushed are
folded into the next update's larger chunk, spec §5). A report carries
all pending bytes with `chunk_start` equal to the count of bytes already
acknowledged (`sent`); updates with no new output carry no output payload
and so do not appear; any bytes left pending at the end go out with the
final report. -/
def reportsGo (sent : Nat) (pending : List Nat) :
    List (List Nat × Bool) → List Report
  | [] => if pending = [] then [] else [⟨sent, pending⟩]
  | (chunk, fl) :: rest =>
    if fl ∧ pending ++ chunk ≠ [] then
      ⟨sent, pending ++ chunk⟩ ::
        reportsGo (sent + (pending ++ chunk).length) [] rest
    else
      reportsGo sent (pending ++ chunk) rest

/-- The reports of a whole `run_command` run, from an empty accumulator. -/
def run_reports (polls : List (List Nat × Bool)) : List Report :=
  reportsGo 0 [] polls

/-- Which deadline fired (spec §4.4): wall-clock or I/O-idle. -/
inductive TimeoutKind
  | hard
  | io
deriving DecidableEq, Repr

/-- One poll of the process during the grace window: the bytes it produced
during that poll and, if it exited by then, its real exit code. -/
structure GraceStep where
  out : List Nat
  exitCode : Option Int
deriving DecidableEq, Repr

/-- Modelled from the spec: the grace-wait phase of `run_command` (absent
from `src/`; spec §4.4). After a hard/io timeout the process group
receives the graceful-terminate signal and the loop keeps polling,
capturing output, for up to `grace` polls. If the process exits on its
own, its real exit code is kept together with the output produced so far;
if the grace window elapses, the process tree is force-killed and the
exit code is `killCode` (the negative of the kill signal number).
Returns the exit code and the output captured after the signal. -/
def graceWait (killCode : Int) : List GraceStep → Nat → (Int × List Nat)
  | _, 0 => (killCode, [])
  | [], _ + 1 => (killCode, [])
  | step :: rest, g + 1 =>
    match step.exitCode with
    | some c => (c, step.out)
    | none =>
      let r := graceWait killCode rest g
      (r.1, step.out ++ r.2)

/-- Final report of a `run_command` run (spec §4.4/§6): exit code, the two
timeout flags, the output bytes not yet flushed and their chunk offset. -/
structure FinalReport where
  exit_code : Int
  hard_timeout : Bool
  io_timeout : Bool
  output : List Nat
  output_chunk_start : Nat
deriving DecidableEq, Repr

/-- Modelled from the spec: `run_command` after a deadline fired
(spec §4.4, `test_hard_signal`/`test_io_signal`): the graceful-terminate
signal is sent, the grace window is waited out via `graceWait`, and the
final report carries the resulting exit code, the flag of the deadline
that fired, and the pre-signal output `pre` followed by the output
captured during grace (here reported in one final chunk from offset 0,
as in the pinned tests). -/
def run_after_timeout (kind : TimeoutKind) (killCode : Int)
    (pre : List Nat) (steps : List GraceStep) (grace : Nat) : FinalReport :=
  let r := graceWait killCode steps grace
  { exit_code := r.1
    hard_timeout := kind == TimeoutKind.hard
    io_timeout := kind == TimeoutKind.io
    output := pre ++ r.2
    output_chunk_start := 0 }

/-- Modelled from the spec: the message attached to a spawn failure
(absent from `src/`; format pinned by `test_run_command_os_error`):
`Command "<args joined by spaces>" failed to start.` followed by the OS
error description. -/
def spawnFailureMessage (command : List String) (err : String) : String :=
  "Command \"" ++ " ".intercalate command ++
    "\" failed to start.\nError: " ++ err

/-- Final report of a non-timed-out `run_command` run, with the output as
text (spec §4.4/§6; same fields as `FinalReport`). -/
structure RunReport where
  exit_code : Int
  hard_timeout : Bool
  io_timeout : Bool
  output : String
  output_chunk_start : Nat
deriving DecidableEq, Repr

/-- Modelled from the spec: the spawn path of `run_command` (absent from
`src/`; spec §4.4 and `test_run_command_os_error`). `spawn` is the OS
result of starting the process: either it runs to completion with an exit
code and output, or spawning raises an `OSError` with a description.
`run_command` never propagates the error: it converts it into a synthetic
failed run with exit code 1 and the human-readable message, and reports
it through the same final-report path as any finished run. Returns the
exit code handed back to the orchestrator together with the final
report. -/
def run_command (command : List String)
    (spawn : Except String (Int × String)) : Int × RunReport :=
  match spawn with
  | .ok (code, out) => (code, ⟨code, false, false, out, 0⟩)
  | .error e => (1, ⟨1, false, false, spawnFailureMessage command e, 0⟩)

end TaskRunner

namespace Net

/-- Once `auth_attempted` is set, `authenticate()` is never invoked again
during the rest of the call. -/
theorem requestLoop_auths_attempted (out : Nat → Outcome) (auth : Option Bool)
    (retry404 retry50x : Bool) (maxA : Nat) :
    ∀ fuel i, (requestLoop out auth retry404 retry50x maxA i true fuel).auths
      = 0 := by
  intro fuel
  induction fuel with
  | zero => intro i; rfl
  | succ f ih =>
    intro i
    cases hout : out i with
    | ok => simp only [requestLoop, hout]
    | connErr => simp only [requestLoop, hout]; exact ih (i + 1)
    | httpErr c =>
      simp only [requestLoop, hout]
      by_cases hc : c = 401 ∨ c = 403
      · rw [if_pos hc]; rfl
      · by_cases hr : (c < 500 ∧ ¬(retry404 ∧ c = 404)) ∨ (500 ≤ c ∧ ¬retry50x)
        · rw [if_neg hc, if_pos hr]
        · rw [if_neg hc, if_neg hr]; exact ih (i + 1)

/-- `authenticate()` is invoked at most once per logical call, whatever
the starting state. -/
theorem requestLoop_auths_le_one (out : Nat → Outcome) (auth : Option Bool)
    (retry404 retry50x : Bool) (maxA : Nat) :
    ∀ fuel i aa, (requestLoop out auth retry404 retry50x maxA i aa fuel).auths
      ≤ 1 := by
  intro fuel
  induction fuel with
  | zero => intro i aa; exact Nat.zero_le 1
  | succ f ih =>
    intro i aa
    cases hout : out i with
    | ok => simp only [requestLoop, hout]; exact Nat.zero_le 1
    | connErr => simp only [requestLoop, hout]; exact ih (i + 1) aa
    | httpErr c =>
      simp only [requestLoop, hout]
      by_cases hc : c = 401 ∨ c = 403
      · rw [if_pos hc]
        cases aa with
        | true => exact Nat.zero_le 1
        | false =>
          cases auth with
          | none => exact Nat.zero_le 1
          | some b =>
            cases b with
            | false => exact Nat.le_refl 1
            | true =>
              show (requestLoop out (some true) retry404 retry50x maxA
                (i + 1) true f).auths + 1 ≤ 1
              rw [requestLoop_auths_attempted]
      · by_cases hr : (c < 500 ∧ ¬(retry404 ∧ c = 404)) ∨ (500 ≤ c ∧ ¬retry50x)
        · rw [if_neg hc, if_pos hr]; exact Nat.zero_le 1
        · rw [if_neg hc, if_neg hr]; exact ih (i + 1) aa

/-- The attempts yielded by the retry loop from attempt `i` on carry the
consecutive indices `i, i+1, ...`. -/
theorem retryGo_yields_consecutive (maxA : Nat) (tA : Option ℚ)
    (skip : Nat → Bool) (clock rand : Nat → ℚ) (start : ℚ) :
    ∀ fuel i k j,
      (yieldsOf (retryGo maxA tA skip clock rand start i k j fuel)).map
          Prod.fst =
        List.range' i (yieldsOf
          (retryGo maxA tA skip clock rand start i k j fuel)).length := by
  intro fuel
  induction fuel with
  | zero => intro i k j; rfl
  | succ f ih =>
    intro i k j
    cases tA with
    | none =>
      simp only [retryGo]
      by_cases hstop : maxA ≠ 0 ∧ i = maxA
      · rw [if_pos hstop]; rfl
      · rw [if_neg hstop]
        by_cases hskip : skip i
        · rw [if_pos hskip]
          simp only [yieldsOf, List.map_cons, List.length_cons,
            List.range'_succ]
          rw [ih]
        · rw [if_neg hskip]
          by_cases hg : maxA ≠ 0 ∧ i ≠ maxA - 1
          · rw [if_pos hg]
            simp only [yieldsOf, List.map_cons, List.length_cons,
              List.range'_succ]
            rw [ih]
          · rw [if_neg hg]
            simp only [yieldsOf, List.map_cons, List.length_cons,
              List.range'_succ]
            rw [ih]
    | some t =>
      simp only [retryGo]
      by_cases hstop : maxA ≠ 0 ∧ i = maxA
      · rw [if_pos hstop]; rfl
      · rw [if_neg hstop]
        by_cases hneg : t - (clock k - start) < 0
        · rw [if_pos hneg]; rfl
        · rw [if_neg hneg]
          by_cases hskip : skip i
          · rw [if_pos hskip]
            simp only [yieldsOf, List.map_cons, List.length_cons,
              List.range'_succ]
            rw [ih]
          · rw [if_neg hskip]
            by_cases hg : maxA ≠ 0 ∧ i ≠ maxA - 1
            · rw [if_pos hg]
              by_cases hneg2 : t - (clock (k + 1) - start) < 0
              · rw [if_pos hneg2]; rfl
              · rw [if_neg hneg2]
                simp only [yieldsOf, List.map_cons, List.length_cons,
                  List.range'_succ]
                rw [ih]
            · rw [if_neg hg]
              simp only [yieldsOf, List.map_cons, List.length_cons,
                List.range'_succ]
              rw [ih]

/-- When `max_attempts` is truthy, no yielded attempt has an index at or
beyond it. -/
theorem retryGo_yields_lt_maxA (maxA : Nat) (tA : Option ℚ)
    (skip : Nat → Bool) (clock rand : Nat → ℚ) (start : ℚ)
    (hm : maxA ≠ 0) :
    ∀ fuel i k j, i ≤ maxA →
      ∀ p ∈ yieldsOf (retryGo maxA tA skip clock rand start i k j fuel),
        p.1 < maxA := by
  intro fuel
  induction fuel with
  | zero => intro i k j _ p hp; exact absurd hp (by simp [retryGo, yieldsOf])
  | succ f ih =>
    intro i k j hi p hp
    by_cases hstop : maxA ≠ 0 ∧ i = maxA
    · rw [show retryGo maxA tA skip clock rand start i k j (f + 1) = [] by
        simp only [retryGo]; rw [if_pos hstop]] at hp
      exact absurd hp (by simp [yieldsOf])
    · have hilt : i < maxA := by
        rcases Nat.lt_or_ge i maxA with h | h
        · exact h
        · exact absurd ⟨hm, Nat.le_antisymm hi h⟩ hstop
      have hnext : i + 1 ≤ maxA := hilt
      cases tA with
      | none =>
        simp only [retryGo, if_neg hstop] at hp
        by_cases hskip : skip i
        · rw [if_pos hskip] at hp
          simp only [yieldsOf, List.mem_cons] at hp
          rcases hp with rfl | hp
          · exact hilt
          · exact ih (i + 1) k j hnext p hp
        · rw [if_neg hskip] at hp
          by_cases hg : maxA ≠ 0 ∧ i ≠ maxA - 1
          · rw [if_pos hg] at hp
            simp only [yieldsOf, List.mem_cons] at hp
            rcases hp with rfl | hp
            · exact hilt
            · exact ih (i + 1) k (j + 1) hnext p hp
          · rw [if_neg hg] at hp
            simp only [yieldsOf, List.mem_cons] at hp
            rcases hp with rfl | hp
            · exact hilt
            · exact ih (i + 1) k j hnext p hp
      | some t =>
        simp only [retryGo, if_neg hstop] at hp
        by_cases hneg : t - (clock k - start) < 0
        · rw [if_pos hneg] at hp
          exact absurd hp (by simp [yieldsOf])
        · rw [if_neg hneg] at hp
          by_cases hskip : skip i
          · rw [if_pos hskip] at hp
            simp only [yieldsOf, List.mem_cons] at hp
            rcases hp with rfl | hp
            · exact hilt
            · exact ih (i + 1) (k + 1) j hnext p hp
          · rw [if_neg hskip] at hp
            by_cases hg : maxA ≠ 0 ∧ i ≠ maxA - 1
            · rw [if_pos hg] at hp
              by_cases hneg2 : t - (clock (k + 1) - start) < 0
              · rw [if_pos hneg2] at hp
                simp only [yieldsOf, List.mem_cons, List.not_mem_nil,
                  or_false] at hp
                rw [hp]
                exact hilt
              · rw [if_neg hneg2] at hp
                simp only [yieldsOf, List.mem_cons] at hp
                rcases hp with rfl | hp
                · exact hilt
                · exact ih (i + 1) (k + 2) (j + 1) hnext p hp
            · rw [if_neg hg] at hp
              simp only [yieldsOf, List.mem_cons] at hp
              rcases hp with rfl | hp
              · exact hilt
              · exact ih (i + 1) (k + 1) j hnext p hp

/-- When a (truthy) timeout is set, every yielded attempt carries a
nonnegative `remaining` budget: the deadline check passed just before the
yield. -/
theorem retryGo_yields_remaining_nonneg (maxA : Nat) (t : ℚ)
    (skip : Nat → Bool) (clock rand : Nat → ℚ) (start : ℚ) :
    ∀ fuel i k j,
      ∀ p ∈ yieldsOf (retryGo maxA (some t) skip clock rand start i k j
        fuel), ∃ r, p.2 = some r ∧ 0 ≤ r := by
  intro fuel
  induction fuel with
  | zero => intro i k j p hp; exact absurd hp (by simp [retryGo, yieldsOf])
  | succ f ih =>
    intro i k j p hp
    by_cases hstop : maxA ≠ 0 ∧ i = maxA
    · rw [show retryGo maxA (some t) skip clock rand start i k j (f + 1)
          = [] by simp only [retryGo]; rw [if_pos hstop]] at hp
      exact absurd hp (by simp [yieldsOf])
    · simp only [retryGo, if_neg hstop] at hp
      by_cases hneg : t - (clock k - start) < 0
      · rw [if_pos hneg] at hp
        exact absurd hp (by simp [yieldsOf])
      · rw [if_neg hneg] at hp
        by_cases hskip : skip i
        · rw [if_pos hskip] at hp
          simp only [yieldsOf, List.mem_cons] at hp
          rcases hp with rfl | hp
          · exact ⟨_, rfl, not_lt.mp hneg⟩
          · exact ih (i + 1) (k + 1) j p hp
        · rw [if_neg hskip] at hp
          by_cases hg : maxA ≠ 0 ∧ i ≠ maxA - 1
          · rw [if_pos hg] at hp
            by_cases hneg2 : t - (clock (k + 1) - start) < 0
            · rw [if_pos hneg2] at hp
              simp only [yieldsOf, List.mem_cons, List.not_mem_nil,
                or_false] at hp
              rw [hp]
              exact ⟨_, rfl, not_lt.mp hneg⟩
            · rw [if_neg hneg2] at hp
              simp only [yieldsOf, List.mem_cons] at hp
              rcases hp with rfl | hp
              · exact ⟨_, rfl, not_lt.mp hneg⟩
              · exact ih (i + 1) (k + 2) (j + 1) p hp
          · rw [if_neg hg] at hp
            simp only [yieldsOf, List.mem_cons] at hp
            rcases hp with rfl | hp
            · exact ⟨_, rfl, not_lt.mp hneg⟩
            · exact ih (i + 1) (k + 1) j p hp

/-- With no timeout and a truthy `max_attempts`, the retry loop running
from attempt `i` yields exactly the attempts `i, …` up to the earlier of
`maxA` and the unfolding fuel. -/
theorem retryGo_none_yields (maxA : Nat) (skip : Nat → Bool)
    (clock rand : Nat → ℚ) (start : ℚ) (hm : maxA ≠ 0) :
    ∀ fuel i k j, i ≤ maxA →
      yieldsOf (retryGo maxA none skip clock rand start i k j fuel) =
        (List.range' i (min (maxA - i) fuel)).map (fun a => (a, none)) := by
  intro fuel
  induction fuel with
  | zero =>
    intro i k j _
    simp [retryGo, yieldsOf]
  | succ f ih =>
    intro i k j hi
    by_cases hstop : maxA ≠ 0 ∧ i = maxA
    · rw [show retryGo maxA none skip clock rand start i k j (f + 1) = [] by
        simp only [retryGo]; rw [if_pos hstop]]
      rcases hstop with ⟨_, rfl⟩
      simp [yieldsOf]
    · have hilt : i < maxA := by
        rcases Nat.lt_or_ge i maxA with h | h
        · exact h
        · exact absurd ⟨hm, Nat.le_antisymm hi h⟩ hstop
      have hmin : min (maxA - i) (f + 1) = min (maxA - i - 1) f + 1 := by
        omega
      rw [hmin, List.range'_succ, List.map_cons]
      simp only [retryGo, if_neg hstop]
      by_cases hskip : skip i
      · rw [if_pos hskip]
        simp only [yieldsOf]
        rw [ih (i + 1) k j hilt]
        have : maxA - (i + 1) = maxA - i - 1 := by omega
        rw [this]
      · rw [if_neg hskip]
        by_cases hg : maxA ≠ 0 ∧ i ≠ maxA - 1
        · rw [if_pos hg]
          simp only [yieldsOf]
          rw [ih (i + 1) k (j + 1) hilt]
          have : maxA - (i + 1) = maxA - i - 1 := by omega
          rw [this]
        · rw [if_neg hg]
          simp only [yieldsOf]
          rw [ih (i + 1) k j hilt]
          have : maxA - (i + 1) = maxA - i - 1 := by omega
          rw [this]

/-- With at least one attempt of fuel left, the loop performs at least one
attempt. -/
theorem requestLoop_attempts_pos (out : Nat → Outcome) (auth : Option Bool)
    (retry404 retry50x : Bool) (maxA : Nat) (fuel i : Nat) (aa : Bool)
    (h : 1 ≤ fuel) :
    1 ≤ (requestLoop out auth retry404 retry50x maxA i aa fuel).attempts := by
  cases fuel with
  | zero => exact absurd h (by simp)
  | succ f =>
    cases hout : out i with
    | ok => simp only [requestLoop, hout]; exact Nat.le_refl 1
    | connErr => simp only [requestLoop, hout]; exact Nat.le_add_left 1 _
    | httpErr c =>
      simp only [requestLoop, hout]
      by_cases hc : c = 401 ∨ c = 403
      · rw [if_pos hc]
        cases aa with
        | true => exact Nat.le_refl 1
        | false =>
          cases auth with
          | none => exact Nat.le_refl 1
          | some b =>
            cases b with
            | false => exact Nat.le_refl 1
            | true => exact Nat.le_add_left 1 _
      · by_cases hr : (c < 500 ∧ ¬(retry404 ∧ c = 404)) ∨ (500 ≤ c ∧ ¬retry50x)
        · rw [if_neg hc, if_pos hr]
        · rw [if_neg hc, if_neg hr]; exact Nat.le_add_left 1 _

end Net

/-- C9: for every attempt index and every random draw `r` in `[0, 1.5)`,
the pre-cap duration `r + 1.5^(attempt-1)` computed by
`calculate_sleep_before_retry` satisfies `1.5^(attempt-1) ≥ 2/3` and is
strictly greater than `0.1`, so the internal `assert duration > 0.1`
never fails. -/
theorem C9_sleep_assert_never_fails (attempt : Nat) (r : ℚ)
    (h0 : 0 ≤ r) (h1 : r < 3/2) :
    (2/3 : ℚ) ≤ (3/2 : ℚ) ^ ((attempt : ℤ) - 1) ∧
      1/10 < Net.sleepDurationRaw attempt r := by
  have hpow : (2/3 : ℚ) ≤ (3/2 : ℚ) ^ ((attempt : ℤ) - 1) := by
    cases attempt with
    | zero =>
        simp only [Nat.cast_zero, zero_sub]
        rw [zpow_neg, zpow_one]
        norm_num
    | succ n =>
        have hn : ((n + 1 : ℕ) : ℤ) - 1 = (n : ℤ) := by push_cast; ring
        rw [hn, zpow_natCast]
        calc (2/3 : ℚ) ≤ 1 := by norm_num
          _ ≤ (3/2 : ℚ) ^ n := one_le_pow₀ (by norm_num)
  refine ⟨hpow, ?_⟩
  unfold Net.sleepDurationRaw
  linarith

/-- Witness for C9 at `attempt = 0`, `r = 0`. -/
theorem C9_sleep_assert_never_fails_witness :
    (2/3 : ℚ) ≤ (3/2 : ℚ) ^ (((0 : Nat) : ℤ) - 1) ∧
      1/10 < Net.sleepDurationRaw 0 0 :=
  C9_sleep_assert_never_fails 0 0 (by norm_num) (by norm_num)

/-- C10: `url_read` returns `none` exactly when `url_open` returned `None`
or reading the response raised `TimeoutError`; otherwise it returns all
bytes of the body; and a caller cannot distinguish a connection failure
from a read timeout, since both map to the same result. -/
theorem C10_url_read_failure_cases (urlOpen : Option Net.ReadOutcome) :
    (Net.url_read urlOpen = none ↔
      urlOpen = none ∨ urlOpen = some .timeout) ∧
    (∀ data, urlOpen = some (.ok data) → Net.url_read urlOpen = some data) ∧
    Net.url_read none = Net.url_read (some .timeout) := by
  refine ⟨?_, ?_, rfl⟩
  · cases urlOpen with
    | none => simp [Net.url_read]
    | some o => cases o <;> simp [Net.url_read]
  · intro data h
    subst h
    rfl

/-- Witness for C10: a successful read of a concrete body. -/
theorem C10_url_read_failure_cases_witness :
    Net.url_read (some (.ok [104, 105])) = some [104, 105] :=
  (C10_url_read_failure_cases (some (.ok [104, 105]))).2.1 [104, 105] rfl

/-- C3: for every logical `HttpService.request` call, re-authentication
happens at most once: on the first 401/403 `authenticate()` is invoked;
if it succeeds, `skip_sleep` is set (no sleep is counted) and the request
is retried immediately; if it fails, or a 401/403 occurs after an
authentication was already attempted, the call returns `None` with no
further attempts. -/
theorem C3_request_reauth_once (out : Nat → Net.Outcome) (authOk : Bool)
    (retry404 retry50x : Bool) (maxA i fuel c : Nat)
    (hc : c = 401 ∨ c = 403) (hout : out i = .httpErr c) :
    (Net.request out (some authOk) retry404 retry50x maxA).auths ≤ 1 ∧
    (authOk = true →
      Net.requestLoop out (some authOk) retry404 retry50x maxA i false
          (fuel + 1) =
        { ok := (Net.requestLoop out (some authOk) retry404 retry50x maxA
            (i + 1) true fuel).ok,
          attempts := (Net.requestLoop out (some authOk) retry404 retry50x
            maxA (i + 1) true fuel).attempts + 1,
          auths := 1,
          sleeps := (Net.requestLoop out (some authOk) retry404 retry50x
            maxA (i + 1) true fuel).sleeps }) ∧
    (authOk = true → 1 ≤ fuel →
      1 ≤ (Net.requestLoop out (some authOk) retry404 retry50x maxA (i + 1)
        true fuel).attempts) ∧
    (authOk = false →
      Net.requestLoop out (some authOk) retry404 retry50x maxA i false
        (fuel + 1) = ⟨false, 1, 1, 0⟩) ∧
    Net.requestLoop out (some authOk) retry404 retry50x maxA i true
      (fuel + 1) = ⟨false, 1, 0, 0⟩ := by
  refine ⟨Net.requestLoop_auths_le_one out (some authOk) retry404 retry50x
    maxA maxA 0 false, ?_, ?_, ?_, ?_⟩
  · intro h
    subst h
    simp only [Net.requestLoop, hout]
    rw [if_pos hc]
    simp [Net.requestLoop_auths_attempted]
  · intro h hf
    exact Net.requestLoop_attempts_pos out (some authOk) retry404 retry50x
      maxA fuel (i + 1) true hf
  · intro h
    subst h
    simp only [Net.requestLoop, hout]
    rw [if_pos hc]
    rfl
  · simp only [Net.requestLoop, hout]
    rw [if_pos hc]
    rfl

/-- Witness for C3: a 403 on attempt 0, successful re-authentication,
success on the retry. -/
theorem C3_request_reauth_once_witness :
    ((403 = 401 ∨ (403:Nat) = 403) ∧
      (fun n : Nat => if n = 0 then Net.Outcome.httpErr 403 else .ok) 0 =
        Net.Outcome.httpErr 403) ∧
    (Net.request (fun n : Nat => if n = 0 then Net.Outcome.httpErr 403
        else .ok) (some true) false true 2).auths ≤ 1 :=
  ⟨⟨by decide, rfl⟩,
    (C3_request_reauth_once
      (fun n : Nat => if n = 0 then Net.Outcome.httpErr 403 else .ok)
      true false true 2 0 1 403 (by decide) rfl).1⟩

/-- C4: an attempt failing with an HTTP error whose code is not 401/403 is
retried if and only if the code is ≥ 500 with `retry_50x` enabled or 404
with `retry_404` enabled; in every other case the call returns `None`
immediately on that attempt, with no further attempts. -/
theorem C4_request_error_classification (out : Nat → Net.Outcome)
    (auth : Option Bool) (retry404 retry50x : Bool) (maxA i fuel c : Nat)
    (aa : Bool) (hc1 : c ≠ 401) (hc3 : c ≠ 403)
    (hout : out i = .httpErr c) :
    (((500 ≤ c ∧ retry50x = true) ∨ (c = 404 ∧ retry404 = true)) →
      Net.requestLoop out auth retry404 retry50x maxA i aa (fuel + 1) =
        { ok := (Net.requestLoop out auth retry404 retry50x maxA (i + 1) aa
            fuel).ok,
          attempts := (Net.requestLoop out auth retry404 retry50x maxA
            (i + 1) aa fuel).attempts + 1,
          auths := (Net.requestLoop out auth retry404 retry50x maxA (i + 1)
            aa fuel).auths,
          sleeps := (Net.requestLoop out auth retry404 retry50x maxA (i + 1)
            aa fuel).sleeps +
              (if maxA ≠ 0 ∧ i ≠ maxA - 1 then 1 else 0) }) ∧
    (¬((500 ≤ c ∧ retry50x = true) ∨ (c = 404 ∧ retry404 = true)) →
      Net.requestLoop out auth retry404 retry50x maxA i aa (fuel + 1) =
        ⟨false, 1, 0, 0⟩) := by
  have hc : ¬(c = 401 ∨ c = 403) := by tauto
  constructor
  · intro h
    have hr : ¬((c < 500 ∧ ¬(retry404 ∧ c = 404)) ∨
        (500 ≤ c ∧ ¬retry50x)) := by
      rcases h with ⟨h5, hx⟩ | ⟨h4, hx⟩ <;> subst hx <;> simp <;> omega
    simp only [Net.requestLoop, hout]
    rw [if_neg hc, if_neg hr]
  · intro h
    have hr : (c < 500 ∧ ¬(retry404 ∧ c = 404)) ∨
        (500 ≤ c ∧ ¬retry50x) := by
      cases retry404 <;> cases retry50x <;> simp_all <;> omega
    simp only [Net.requestLoop, hout]
    rw [if_neg hc, if_pos hr]

/-- Witness for C4: a 400 response with default flags aborts the call
immediately. -/
theorem C4_request_error_classification_witness :
    ((400:Nat) ≠ 401 ∧ (400:Nat) ≠ 403) ∧
    Net.requestLoop (fun _ : Nat => Net.Outcome.httpErr 400) none false true
      2 0 false (1 + 1) = ⟨false, 1, 0, 0⟩ :=
  ⟨⟨by decide, by decide⟩,
    (C4_request_error_classification (fun _ : Nat => Net.Outcome.httpErr 400)
      none false true 2 0 1 400 false (by decide) (by decide) rfl).2
      (by decide)⟩

/-- C5: `retry_loop` yields attempts with consecutive 0-based indices
starting at 0; when `max_attempts` is set (truthy) no attempt with index
`≥ max_attempts` is yielded; when a (truthy) timeout is set every yielded
attempt passed the deadline check, carrying a nonnegative remaining
budget; and with `max_attempts = 3, timeout = None` exactly the three
attempts 0, 1, 2 are yielded. -/
theorem C5_retry_loop_bounds (maxA : Nat) (t : ℚ) (skip : Nat → Bool)
    (clock rand : Nat → ℚ) (fuel : Nat) (hm : maxA ≠ 0) (ht : t ≠ 0) :
    (∀ (maxB : Nat) (tA : Option ℚ),
      (Net.yieldsOf (Net.retry_loop maxB tA skip clock rand fuel)).map
          Prod.fst =
        List.range (Net.yieldsOf
          (Net.retry_loop maxB tA skip clock rand fuel)).length) ∧
    (∀ tA : Option ℚ,
      ∀ p ∈ Net.yieldsOf (Net.retry_loop maxA tA skip clock rand fuel),
        p.1 < maxA) ∧
    (∀ p ∈ Net.yieldsOf (Net.retry_loop maxA (some t) skip clock rand fuel),
      ∃ r, p.2 = some r ∧ 0 ≤ r) ∧
    (3 ≤ fuel →
      Net.yieldsOf (Net.retry_loop 3 none skip clock rand fuel) =
        [(0, none), (1, none), (2, none)]) := by
  refine ⟨?_, ?_, ?_, ?_⟩
  · intro maxB tA
    simp only [Net.retry_loop]
    rw [List.range_eq_range']
    exact Net.retryGo_yields_consecutive maxB _ skip clock rand (clock 0)
      fuel 0 1 0
  · intro tA p hp
    simp only [Net.retry_loop] at hp
    exact Net.retryGo_yields_lt_maxA maxA _ skip clock rand (clock 0) hm
      fuel 0 1 0 (Nat.zero_le _) p hp
  · intro p hp
    simp only [Net.retry_loop] at hp
    rw [if_neg ht] at hp
    exact Net.retryGo_yields_remaining_nonneg maxA t skip clock rand
      (clock 0) fuel 0 1 0 p hp
  · intro hf
    simp only [Net.retry_loop]
    rw [Net.retryGo_none_yields 3 skip clock rand (clock 0) (by decide)
      fuel 0 1 0 (Nat.zero_le 3)]
    have hmin : min (3 - 0) fuel = 3 := by omega
    rw [hmin]
    rfl

/-- Witness for C5: with `max_attempts = 3` and no timeout, exactly the
attempts 0, 1, 2 are yielded. -/
theorem C5_retry_loop_bounds_witness :
    ((3:Nat) ≠ 0 ∧ (5:ℚ) ≠ 0 ∧ 3 ≤ 3) ∧
    Net.yieldsOf (Net.retry_loop 3 none (fun _ => false) (fun _ => (0:ℚ))
      (fun _ => (0:ℚ)) 3) = [(0, none), (1, none), (2, none)] :=
  ⟨⟨by decide, by norm_num, by decide⟩,
    (C5_retry_loop_bounds 3 5 (fun _ => false) (fun _ => 0) (fun _ => 0) 3
      (by decide) (by norm_num)).2.2.2 (by decide)⟩

/-- C6 counterexample: with a falsy `max_attempts` (`None`/`0`, the
default of `retry_loop`) and no timeout, two consecutive attempts are
yielded with no sleep in between — the sleeping branch is guarded by
`if max_attempts`, so with unbounded attempts `retry_loop` never sleeps,
contradicting the claim that every pair of consecutive yields (without
`skip_sleep`) is separated by a jittered sleep. -/
theorem C6_counterexample :
    Net.retry_loop 0 none (fun _ => false) (fun _ => (0:ℚ))
        (fun _ => (0:ℚ)) 2 =
      [.yield 0 none, .yield 1 none] := by
  rfl

/-- C6 (amended): when `max_attempts` is truthy, between two consecutive
yields of attempts `i` and `i+1` (with `skip_sleep` unset on attempt `i`)
`retry_loop` sleeps exactly once, for
`calculate_sleep_before_retry i remaining r`, i.e. the jittered duration
`r + 1.5^(i-1)` capped at `MAX_SLEEP = 10` and, when a timeout is set and
the recomputed remaining budget is truthy (nonzero), at that remaining
budget. -/
theorem C6_sleep_between_yields (maxA : Nat) (skip : Nat → Bool)
    (clock rand : Nat → ℚ) (start : ℚ) (i k j fuel : Nat)
    (hm : maxA ≠ 0) (hi : i < maxA - 1) (hskip : skip i = false) :
    (Net.retryGo maxA none skip clock rand start i k j (fuel + 2) =
      .yield i none ::
        .sleep (Net.calculate_sleep_before_retry i none (rand j)) ::
          Net.retryGo maxA none skip clock rand start (i + 1) k (j + 1)
            (fuel + 1)) ∧
    ((Net.retryGo maxA none skip clock rand start (i + 1) k (j + 1)
        (fuel + 1)).head? = some (.yield (i + 1) none)) ∧
    (∀ t : ℚ, 0 ≤ t - (clock k - start) → 0 ≤ t - (clock (k + 1) - start) →
      Net.retryGo maxA (some t) skip clock rand start i k j (fuel + 2) =
        .yield i (some (t - (clock k - start))) ::
          .sleep (Net.calculate_sleep_before_retry i
              (some (t - (clock (k + 1) - start))) (rand j)) ::
            Net.retryGo maxA (some t) skip clock rand start (i + 1) (k + 2)
              (j + 1) (fuel + 1)) ∧
    (∀ rem r : ℚ, rem ≠ 0 →
      Net.calculate_sleep_before_retry i (some rem) r =
        min rem (min Net.MAX_SLEEP (Net.sleepDurationRaw i r))) := by
  have hstop : ¬(maxA ≠ 0 ∧ i = maxA) := by omega
  have hstop2 : ¬(maxA ≠ 0 ∧ i + 1 = maxA) := by omega
  have hg : maxA ≠ 0 ∧ i ≠ maxA - 1 := by omega
  have hskip' : ¬(skip i = true) := by simp [hskip]
  refine ⟨?_, ?_, ?_, ?_⟩
  · simp only [Net.retryGo]
    rw [if_neg hstop, if_neg hskip', if_pos hg]
  · simp only [Net.retryGo]
    rw [if_neg hstop2]
    rfl
  · intro t h1 h2
    simp only [Net.retryGo]
    rw [if_neg hstop, if_neg (not_lt.mpr h1), if_neg hskip', if_pos hg,
      if_neg (not_lt.mpr h2)]
  · intro rem r hrem
    simp [Net.calculate_sleep_before_retry, hrem]

/-- Witness for C6 (amended): a concrete run where the sleep separates the
yields of attempts 0 and 1. -/
theorem C6_sleep_between_yields_witness :
    ((3:Nat) ≠ 0 ∧ (0:Nat) < 3 - 1 ∧ (fun _ : Nat => false) 0 = false) ∧
    Net.retryGo 3 none (fun _ => false) (fun _ => (0:ℚ)) (fun _ => (0:ℚ))
        0 0 0 0 (0 + 2) =
      .yield 0 none ::
        .sleep (Net.calculate_sleep_before_retry 0 none ((fun _ => (0:ℚ))
          0)) ::
          Net.retryGo 3 none (fun _ => false) (fun _ => (0:ℚ))
            (fun _ => (0:ℚ)) 0 1 0 1 (0 + 1) :=
  ⟨⟨by decide, by decide, rfl⟩,
    (C6_sleep_between_yields 3 (fun _ => false) (fun _ => 0) (fun _ => 0)
      0 0 0 0 0 (by decide) (by decide) rfl).1⟩

namespace TaskRunner

/-- Every emitted report carries a nonempty output slice: updates with no
new output carry no output payload. -/
theorem reportsGo_output_ne_nil (polls : List (List Nat × Bool)) :
    ∀ sent pending, ∀ r ∈ reportsGo sent pending polls, r.output ≠ [] := by
  induction polls with
  | nil =>
    intro sent pending r hr
    simp only [reportsGo] at hr
    by_cases hp : pending = []
    · rw [if_pos hp] at hr
      exact absurd hr (List.not_mem_nil r)
    · rw [if_neg hp] at hr
      simp only [List.mem_singleton] at hr
      rw [hr]
      exact hp
  | cons head rest ih =>
    intro sent pending r hr
    obtain ⟨chunk, fl⟩ := head
    simp only [reportsGo] at hr
    by_cases hc : fl ∧ pending ++ chunk ≠ []
    · rw [if_pos hc] at hr
      rcases List.mem_cons.mp hr with rfl | hr
      · exact hc.2
      · exact ih _ _ r hr
    · rw [if_neg hc] at hr
      exact ih _ _ r hr

/-- The concatenation of all emitted output slices is the pending bytes
followed by everything the process produces: nothing is lost and nothing
is resent. -/
theorem reportsGo_flatten (polls : List (List Nat × Bool)) :
    ∀ sent pending,
      ((reportsGo sent pending polls).map Report.output).flatten =
        pending ++ (polls.map Prod.fst).flatten := by
  induction polls with
  | nil =>
    intro sent pending
    by_cases hp : pending = []
    · simp [reportsGo, hp]
    · simp [reportsGo, hp]
  | cons head rest ih =>
    intro sent pending
    obtain ⟨chunk, fl⟩ := head
    simp only [reportsGo]
    by_cases hc : fl ∧ pending ++ chunk ≠ []
    · rw [if_pos hc]
      simp only [List.map_cons, List.flatten_cons, ih]
      simp [List.append_assoc]
    · rw [if_neg hc]
      rw [ih]
      simp [List.append_assoc]

/-- The n-th emitted report's `chunk_start` is the starting offset plus
the total size of the output carried by the earlier reports. -/
theorem reportsGo_chunk_start (polls : List (List Nat × Bool)) :
    ∀ sent pending n r,
      (reportsGo sent pending polls)[n]? = some r →
      r.chunk_start = sent +
        (((reportsGo sent pending polls).take n).map
          (fun x => x.output.length)).sum := by
  induction polls with
  | nil =>
    intro sent pending n r hr
    simp only [reportsGo] at hr ⊢
    by_cases hp : pending = []
    · rw [if_pos hp] at hr
      simp at hr
    · rw [if_neg hp] at hr ⊢
      cases n with
      | zero =>
        simp only [List.getElem?_cons_zero, Option.some.injEq] at hr
        rw [← hr]
        simp
      | succ m =>
        simp at hr
  | cons head rest ih =>
    intro sent pending n r hr
    obtain ⟨chunk, fl⟩ := head
    simp only [reportsGo] at hr ⊢
    by_cases hc : fl ∧ pending ++ chunk ≠ []
    · rw [if_pos hc] at hr ⊢
      cases n with
      | zero =>
        simp only [List.getElem?_cons_zero, Option.some.injEq] at hr
        rw [← hr]
        simp
      | succ m =>
        simp only [List.getElem?_cons_succ] at hr
        rw [List.take_succ_cons, List.map_cons, List.sum_cons]
        rw [ih _ _ m r hr]
        exact Nat.add_assoc sent (pending ++ chunk).length _
    · rw [if_neg hc] at hr ⊢
      exact ih _ _ n r hr

/-- After the graceful-terminate signal, a process that exits on its own
within the grace window keeps its real exit code, and all output produced
after the signal is captured. -/
theorem graceWait_exits (killCode : Int) (exitStep : GraceStep) (c : Int)
    (rest : List GraceStep) (hexit : exitStep.exitCode = some c) :
    ∀ (noExit : List GraceStep) (grace : Nat), noExit.length < grace →
      (∀ s ∈ noExit, s.exitCode = none) →
      graceWait killCode (noExit ++ exitStep :: rest) grace =
        (c, (noExit.map GraceStep.out).flatten ++ exitStep.out) := by
  intro noExit
  induction noExit with
  | nil =>
    intro grace hg _
    cases grace with
    | zero => exact absurd hg (by omega)
    | succ g =>
      simp only [List.nil_append, graceWait, hexit]
      simp
  | cons s tl ih =>
    intro grace hg hnone
    cases grace with
    | zero => exact absurd hg (by omega)
    | succ g =>
      have hs : s.exitCode = none := hnone s (List.mem_cons_self s tl)
      simp only [List.cons_append, graceWait, hs, List.append_eq]
      rw [ih g (by simpa using hg)
        (fun x hx => hnone x (List.mem_cons_of_mem s hx))]
      simp [List.append_assoc]

end TaskRunner

/-- C2: the progress reports of a run satisfy the OutputAccumulator
invariant: the first report's `output_chunk_start` is 0; the n-th
report's `chunk_start` equals the total size of the output sent in all
earlier reports; consecutive reports are contiguous with strictly
increasing offsets; every report carries a nonempty slice; and the
concatenation of all reported slices is exactly the process's full
output, with no gaps or overlaps. -/
theorem C2_output_reports_invariant (polls : List (List Nat × Bool)) :
    (∀ r0, (TaskRunner.run_reports polls).head? = some r0 →
      r0.chunk_start = 0) ∧
    (∀ n r, (TaskRunner.run_reports polls)[n]? = some r →
      r.chunk_start = (((TaskRunner.run_reports polls).take n).map
        (fun x => x.output.length)).sum) ∧
    (∀ r ∈ TaskRunner.run_reports polls, r.output ≠ []) ∧
    (∀ n r r', (TaskRunner.run_reports polls)[n]? = some r →
      (TaskRunner.run_reports polls)[n + 1]? = some r' →
      r'.chunk_start = r.chunk_start + r.output.length ∧
      r.chunk_start < r'.chunk_start) ∧
    ((TaskRunner.run_reports polls).map TaskRunner.Report.output).flatten =
      (polls.map Prod.fst).flatten := by
  have hcs : ∀ n r, (TaskRunner.run_reports polls)[n]? = some r →
      r.chunk_start = (((TaskRunner.run_reports polls).take n).map
        (fun x => x.output.length)).sum := by
    intro n r hr
    simpa using TaskRunner.reportsGo_chunk_start polls 0 [] n r hr
  have hne : ∀ r ∈ TaskRunner.run_reports polls, r.output ≠ [] :=
    TaskRunner.reportsGo_output_ne_nil polls 0 []
  refine ⟨?_, hcs, hne, ?_, ?_⟩
  · intro r0 h0
    rw [List.head?_eq_getElem?] at h0
    simpa using hcs 0 r0 h0
  · intro n r r' hr hr'
    have h1 := hcs n r hr
    have h2 := hcs (n + 1) r' hr'
    rw [List.take_succ, hr] at h2
    simp only [List.map_append, List.sum_append, Option.toList_some,
      List.map_cons, List.map_nil, List.sum_cons, List.sum_nil,
      Nat.add_zero] at h2
    have hmem : r ∈ TaskRunner.run_reports polls := List.getElem?_mem hr
    have hlen : 0 < r.output.length := List.length_pos.mpr (hne r hmem)
    constructor
    · rw [h2, h1]
    · rw [h2, h1]
      omega
  · simpa using TaskRunner.reportsGo_flatten polls 0 []

/-- Witness for C2: a concrete run with one un-flushed poll folded into
the next report. -/
theorem C2_output_reports_invariant_witness :
    (TaskRunner.run_reports
        [([1, 2], false), ([3], true), ([4, 5, 6], true)])[0]? =
      some ⟨0, [1, 2, 3]⟩ ∧
    (⟨0, [1, 2, 3]⟩ : TaskRunner.Report).chunk_start =
      (((TaskRunner.run_reports
        [([1, 2], false), ([3], true), ([4, 5, 6], true)]).take 0).map
          (fun x => x.output.length)).sum :=
  ⟨rfl,
    (C2_output_reports_invariant
      [([1, 2], false), ([3], true), ([4, 5, 6], true)]).2.1 0
      ⟨0, [1, 2, 3]⟩ rfl⟩

/-- C7: when a hard or io timeout fired and the process then exits on its
own within the grace window after the graceful-terminate signal, the
final report carries the process's real exit code (not a signal-derived
one), the flag of the deadline that fired is true, and the captured
output includes the output produced after the signal. -/
theorem C7_timeout_grace_exit (kind : TaskRunner.TimeoutKind)
    (killCode : Int) (pre : List Nat)
    (noExit : List TaskRunner.GraceStep) (exitStep : TaskRunner.GraceStep)
    (rest : List TaskRunner.GraceStep) (c : Int) (grace : Nat)
    (hexit : exitStep.exitCode = some c)
    (hg : noExit.length < grace)
    (hnone : ∀ s ∈ noExit, s.exitCode = none) :
    (TaskRunner.run_after_timeout kind killCode pre
        (noExit ++ exitStep :: rest) grace).exit_code = c ∧
    (kind = .hard → (TaskRunner.run_after_timeout kind killCode pre
        (noExit ++ exitStep :: rest) grace).hard_timeout = true) ∧
    (kind = .io → (TaskRunner.run_after_timeout kind killCode pre
        (noExit ++ exitStep :: rest) grace).io_timeout = true) ∧
    (TaskRunner.run_after_timeout kind killCode pre
        (noExit ++ exitStep :: rest) grace).output =
      (pre ++ (noExit.map TaskRunner.GraceStep.out).flatten) ++
        exitStep.out ∧
    (TaskRunner.run_after_timeout kind killCode pre
        (noExit ++ exitStep :: rest) grace).output_chunk_start = 0 := by
  have hgw := TaskRunner.graceWait_exits killCode exitStep c rest hexit
    noExit grace hg hnone
  simp only [TaskRunner.run_after_timeout, hgw]
  refine ⟨?_, ?_, ?_, ?_, ?_⟩
  · trivial
  · intro h
    subst h
    rfl
  · intro h
    subst h
    rfl
  · simp [List.append_assoc]
  · trivial

/-- Witness for C7: a hard timeout whose process exits 0 during grace
after printing more output. -/
theorem C7_timeout_grace_exit_witness :
    ((⟨[2, 3], some 0⟩ : TaskRunner.GraceStep).exitCode = some 0 ∧
      ([⟨[1], none⟩] : List TaskRunner.GraceStep).length < 3) ∧
    (TaskRunner.run_after_timeout .hard (-9) [104, 105]
        (([⟨[1], none⟩] : List TaskRunner.GraceStep) ++
          ⟨[2, 3], some 0⟩ :: []) 3).exit_code = 0 :=
  ⟨⟨rfl, by decide⟩,
    (C7_timeout_grace_exit .hard (-9) [104, 105] [⟨[1], none⟩]
      ⟨[2, 3], some 0⟩ [] 0 3 rfl (by decide) (by decide)).1⟩

/-- C8: a spawn failure is not propagated: `run_command` returns a
synthetic failed run with exit code 1 through the same final-report path
as any finished run (both timeout flags false, `output_chunk_start` 0),
and its output is the human-readable message naming the command and the
underlying OS error. -/
theorem C8_spawn_failure_report (command : List String) (e : String) :
    TaskRunner.run_command command (.error e) =
      (1, ⟨1, false, false, TaskRunner.spawnFailureMessage command e, 0⟩) ∧
    (TaskRunner.spawnFailureMessage command e).data =
      ("Command \"").data ++ ((" ".intercalate command).data ++
        (("\" failed to start.\nError: ").data ++ e.data)) := by
  refine ⟨rfl, ?_⟩
  simp [TaskRunner.spawnFailureMessage, String.data_append,
    List.append_assoc]

/-- C1 counterexample: with the manifest of `test_load_and_run_fail` and a
command that exits 1 on its first invocation and would exit 0 on a retry,
`load_and_run` performs exactly one invocation and returns `false`,
not two invocations returning `true` as claimed. -/
theorem C1_counterexample :
    TaskRunner.load_and_run
        ⟨"localhost", ["a"], [("https://localhost:1/f", "foo.zip")],
          [("d", "e")], 30, 10, 11, 23⟩
        (fun _ n => if n = 0 then 1 else 0) = (false, 1) ∧
    ((false, 1) : Bool × Nat) ≠ (true, 2) :=
  ⟨rfl, by decide⟩

/-- C1 (amended): `load_and_run` invokes `run_command` exactly once per
manifest, and returns true exactly when that single invocation exits
with code 0. -/
theorem C1_load_and_run_single_invocation (details : TaskRunner.TaskDetails)
    (run : TaskRunner.TaskDetails → Nat → Int) :
    (TaskRunner.load_and_run details run).2 = 1 ∧
    ((TaskRunner.load_and_run details run).1 = true ↔ run details 0 = 0) :=
  ⟨rfl, by simp [TaskRunner.load_and_run]⟩
